import Mathlib

/-!
Shallow embedding of `extended_json_schema_validator/extensions/fk_check.py`
(the cross-document foreign-key referential-integrity engine), together with
the pieces of its collaborators that the engine observes.

Conventions of the embedding:
* Python dicts (which iterate in insertion order) become association lists
  `List (String × α)`; `dict.setdefault` / item assignment become `setA`.
* Python sets become lists deduplicated on insertion (`addUnique`,
  `insertVal`); content equality matches the NamedTuple structural
  equality used by the source (`FKVals.__hash__` hashes the full content).
* JSON numbers are modelled as `Int` (no arithmetic is ever performed on
  them; they are only compared for equality and rendered).
* `str(id(obj))` runtime identities become explicit `String` fields
  (`contextId`, `schemaGid`), per the design note that they act as stable
  join keys within one run.
-/

namespace FkCheck

/-- A JSON value, as gathered from documents and schemas. -/
inductive JVal : Type where
  | null : JVal
  | bool : Bool → JVal
  | num : Int → JVal
  | str : String → JVal
  | arr : List JVal → JVal
  | obj : List (String × JVal) → JVal
deriving Repr

mutual

/-- Decidable structural equality on JSON values (Python NamedTuple/tuple
equality over parsed JSON content). -/
def decEqJ : (a b : JVal) → Decidable (a = b)
  | .null, .null => isTrue rfl
  | .bool a, .bool b =>
    match decEq a b with
    | isTrue h => isTrue (by rw [h])
    | isFalse h => isFalse (by intro hc; cases hc; exact h rfl)
  | .num a, .num b =>
    match decEq a b with
    | isTrue h => isTrue (by rw [h])
    | isFalse h => isFalse (by intro hc; cases hc; exact h rfl)
  | .str a, .str b =>
    match decEq a b with
    | isTrue h => isTrue (by rw [h])
    | isFalse h => isFalse (by intro hc; cases hc; exact h rfl)
  | .arr xs, .arr ys =>
    match decEqJList xs ys with
    | isTrue h => isTrue (by rw [h])
    | isFalse h => isFalse (by intro hc; cases hc; exact h rfl)
  | .obj xs, .obj ys =>
    match decEqJObj xs ys with
    | isTrue h => isTrue (by rw [h])
    | isFalse h => isFalse (by intro hc; cases hc; exact h rfl)
  | .null, .bool _ | .null, .num _ | .null, .str _ | .null, .arr _ | .null, .obj _
  | .bool _, .null | .bool _, .num _ | .bool _, .str _ | .bool _, .arr _ | .bool _, .obj _
  | .num _, .null | .num _, .bool _ | .num _, .str _ | .num _, .arr _ | .num _, .obj _
  | .str _, .null | .str _, .bool _ | .str _, .num _ | .str _, .arr _ | .str _, .obj _
  | .arr _, .null | .arr _, .bool _ | .arr _, .num _ | .arr _, .str _ | .arr _, .obj _
  | .obj _, .null | .obj _, .bool _ | .obj _, .num _ | .obj _, .str _ | .obj _, .arr _ =>
    isFalse (by intro hc; cases hc)

def decEqJList : (xs ys : List JVal) → Decidable (xs = ys)
  | [], [] => isTrue rfl
  | [], _ :: _ => isFalse (by intro hc; cases hc)
  | _ :: _, [] => isFalse (by intro hc; cases hc)
  | x :: xs, y :: ys =>
    match decEqJ x y with
    | isFalse h => isFalse (by intro hc; cases hc; exact h rfl)
    | isTrue h =>
      match decEqJList xs ys with
      | isTrue h2 => isTrue (by rw [h, h2])
      | isFalse h2 => isFalse (by intro hc; cases hc; exact h2 rfl)

def decEqJObj : (xs ys : List (String × JVal)) → Decidable (xs = ys)
  | [], [] => isTrue rfl
  | [], _ :: _ => isFalse (by intro hc; cases hc)
  | _ :: _, [] => isFalse (by intro hc; cases hc)
  | (k, x) :: xs, (k2, y) :: ys =>
    match decEq k k2 with
    | isFalse h => isFalse (by intro hc; cases hc; exact h rfl)
    | isTrue h =>
      match decEqJ x y with
      | isFalse h2 => isFalse (by intro hc; cases hc; exact h2 rfl)
      | isTrue h2 =>
        match decEqJObj xs ys with
        | isTrue h3 => isTrue (by rw [h, h2, h3])
        | isFalse h3 => isFalse (by intro hc; cases hc; exact h3 rfl)

end

instance : DecidableEq JVal := decEqJ

/-- Modelled from the spec: the allowed atomic key value types of
`index_check.ALLOWED_ATOMIC_VALUE_TYPES` (not under `src/`): string,
number, boolean.  Returns the canonical atomic payload when the value is
one of them. -/
def atomicKV : JVal → Option JVal
  | .str s => some (.str s)
  | .num n => some (.num n)
  | .bool b => some (.bool b)
  | _ => none

mutual
/-- Modelled from the spec: a canonical textual rendering of a JSON value,
used when combinations are rendered to canonical comparison strings
(`index_check.IndexKey.GenKeyStrings` is not under `src/`). -/
def renderJ : JVal → String
  | .null => "null"
  | .bool true => "true"
  | .bool false => "false"
  | .num n => toString n
  | .str s => "\x22" ++ s ++ "\x22"
  | .arr xs => "[" ++ renderList xs ++ "]"
  | .obj kvs => "\x7b" ++ renderObj kvs ++ "\x7d"

def renderList : List JVal → String
  | [] => ""
  | [x] => renderJ x
  | x :: xs => renderJ x ++ "," ++ renderList xs

def renderObj : List (String × JVal) → String
  | [] => ""
  | [(k, v)] => "\x22" ++ k ++ "\x22:" ++ renderJ v
  | (k, v) :: kvs => "\x22" ++ k ++ "\x22:" ++ renderJ v ++ "," ++ renderObj kvs
end

/-- Cross product of the per-member value sequences: every way of picking
one value per member, in order. -/
def listProd : List (List JVal) → List (List JVal)
  | [] => [[]]
  | vs :: rest => vs.flatMap (fun v => (listProd rest).map (v :: ·))

/-- Modelled from the spec: `IndexKey.GenKeyStrings` (not under `src/`)
renders each combination of the cross product across all members' value
sequences to one canonical comparison string. -/
def GenKeyStrings (obtainedValues : List (List JVal)) : List String :=
  (listProd obtainedValues).map (fun combo => String.intercalate "\t" (combo.map renderJ))

/-- Modelled from the spec: `IndexKey.GetKeyValues` (not under `src/`)
extracts one value sequence per member path; a member selecting an array
yields all its elements (supporting multi-valued members). -/
def getMemberValues (v : JVal) (member : String) : List JVal :=
  match v with
  | .obj kvs =>
    match kvs.lookup member with
    | some (.arr xs) => xs
    | some x => [x]
    | none => []
  | _ => []

/-- Modelled from the spec: one value sequence per member, in member-list
order. -/
def GetKeyValues (v : JVal) (members : List String) : List (List JVal) :=
  members.map (getMemberValues v)

/-- A canonical comparison value: either a raw allowed atomic value
(the fast path keeps the value itself) or a generated canonical string.
This is the `Union[str, int, float, bool]` currency of the second pass. -/
inductive KVal : Type where
  | str : String → KVal
  | num : Int → KVal
  | bool : Bool → KVal
deriving DecidableEq, Repr

/-- Python `str(...)` of a canonical value, as interpolated into error
descriptions by `"{0}".format(theValue)`. -/
def kvalStr : KVal → String
  | .str s => s
  | .num n => toString n
  | .bool true => "True"
  | .bool false => "False"

/-- The canonical value corresponding to a raw atomic JSON value. -/
def toKVal : JVal → KVal
  | .str s => .str s
  | .num n => .num n
  | .bool b => .bool b
  | .null => .str "null"
  | .arr _ => .str "[]"
  | .obj _ => .str "\x7b\x7d"

/-! ### Association-list operations (Python dicts, insertion ordered) -/

/-- Python `d.get(key)` on an insertion-ordered dict modelled as an association
list. -/
def lookupA {α : Type} : List (String × α) → String → Option α
  | [], _ => none
  | (k, v) :: rest, key => if k = key then some v else lookupA rest key

/-- Python `d[key] = v`: replace in place if the key is present, else append
(new dict keys go to the end of the iteration order). -/
def setA {α : Type} : List (String × α) → String → α → List (String × α)
  | [], key, v => [(key, v)]
  | (k, v') :: rest, key, v =>
    if k = key then (k, v) :: rest else (k, v') :: setA rest key v

/-- Python `s.add(x)` on a set modelled as an insertion-ordered
deduplicated list. -/
def addUnique {α : Type} [DecidableEq α] (l : List α) (x : α) : List α :=
  if x ∈ l then l else l ++ [x]

/-! ### The data model of `fk_check.py` -/

/-- The raw `members` attribute of a foreign-key declaration.  The source
guards extraction with `isinstance(fkDef.members, list)`; a non-list value
is kept opaque and triggers the whole-value fallback. -/
inductive Members : Type where
  | list : List String → Members
  | other : JVal → Members
deriving DecidableEq, Repr

/-- Structure `FKVals`: one deduplicated sighting of a foreign-key value — the
extracted per-member value sequences and the JSON file where it happened.
Hashing/equality in the source is by full content. -/
structure FKVals : Type where
  values : List (List JVal)
  whereFile : String
deriving DecidableEq, Repr

/-- Structure `FKLoc`: the location of one foreign-key declaration, with its
gathered occurrence set. -/
structure FKLoc : Type where
  schemaURI : String
  refSchemaURI : String
  path : String
  values : List FKVals
deriving DecidableEq, Repr

/-- Structure `FKDef`: a registered foreign-key declaration. -/
structure FKDef : Type where
  fkLoc : FKLoc
  members : Members
  refers_to : Option String
deriving DecidableEq, Repr

/-- Map `FKWorld`: first level keyed by referenced (target) schema URI, second
level keyed by the declaration site id `str(id(context)) + "_" + index`. -/
abbrev FKWorld : Type := List (String × List (String × FKDef))

/-- One parsed foreign-key declaration object, as found in a schema or
passed to `validate`:  optional target schema id, `members`, optional
target key name. -/
structure FKDecl : Type where
  schema_id : Option String
  members : Members
  refers_to : Option String
deriving DecidableEq, Repr

/-- One schema-level occurrence of the trigger attribute handed to
`bootstrap`: the runtime identity of its schema context
(`str(id(loc.context))`), its path, and its list of declarations. -/
structure FeatureLoc : Type where
  contextId : String
  path : String
  decls : List FKDecl
deriving DecidableEq, Repr

/-- A second-pass error record `{reason, description, file, path}`. -/
structure SPError : Type where
  reason : String
  description : String
  file : String
  path : String
deriving DecidableEq, Repr

/-- A bootstrap error record `{reason, description}`. -/
structure BootError : Type where
  reason : String
  description : String
deriving DecidableEq, Repr

/-- The engine's identity: its own schema URI, the source tag used in
bootstrap error messages, the name of the primary-key sibling class whose
contexts it consumes, and the subclass-specific dangling error reason.
`ForeignKey` instantiates these as
(`jsonSchemaSource`, `"PrimaryKey"`, `"dangling_fk"`). -/
structure Engine : Type where
  schemaURI : String
  jsonSchemaSource : String
  joinClassName : String
  danglingReason : String
deriving DecidableEq, Repr

/-- The `ForeignKey` subclass fixes the join class to `PrimaryKey` and the
dangling reason to `"dangling_fk"`. -/
def ForeignKeyEngine (schemaURI jsonSchemaSource : String) : Engine :=
  { schemaURI := schemaURI
    jsonSchemaSource := jsonSchemaSource
    joinClassName := "PrimaryKey"
    danglingReason := "dangling_fk" }

/-! ### Resolution of the target schema URI (lines 173-179 and 226-231,
the identical block appears at both sites in the source) -/

/-- Resolve a declaration's optional `schema_id` against the declaring
schema's URI.  `isabs` and `urijoin` are the external `uriagents`
collaborators, passed as parameters (out of scope per the spec, consumed
at the interface boundary). -/
def resolveRefSchemaId (isabs : String → Bool) (urijoin : String → String → String)
    (schemaURI : String) : Option String → String
  | none => schemaURI
  | some ref_schema_id =>
    if isabs schemaURI then urijoin schemaURI ref_schema_id else ref_schema_id

/-! ### Bootstrap (lines 157-207) -/

/-- Register declaration `d` under outer key `uri` and site id `locId`:
`fkDefH = FKWorld.setdefault(fk_id, dict())` followed by
`fkDefH[fk_loc_id] = FKDef(...)`. -/
def setIn (w : FKWorld) (uri locId : String) (d : FKDef) : FKWorld :=
  setA w uri (setA ((lookupA w uri).getD []) locId d)

/-- Process one declaration (array position `i`) of one feature location
during bootstrap: resolve the target URI, report `fk_no_schema` when it is
not in the schema cache, and register the declaration regardless. -/
def bootstrapDecl (isabs : String → Bool) (urijoin : String → String → String)
    (eng : Engine) (refSchemaCache : List String) (loc : FeatureLoc)
    (i : Nat) (d : FKDecl) (acc : List BootError × FKWorld) :
    List BootError × FKWorld :=
  let fk_loc_id := loc.contextId ++ "_" ++ toString i
  let abs_ref_schema_id := resolveRefSchemaId isabs urijoin eng.schemaURI d.schema_id
  let errs :=
    if abs_ref_schema_id ∈ refSchemaCache then acc.1
    else
      acc.1 ++ [{ reason := "fk_no_schema"
                  description := "No schema with " ++ abs_ref_schema_id ++
                    " id, required by " ++ eng.jsonSchemaSource ++
                    " (" ++ eng.schemaURI ++ ")" }]
  let fkLoc : FKLoc :=
    { schemaURI := eng.schemaURI
      refSchemaURI := abs_ref_schema_id
      path := loc.path ++ "/" ++ toString i
      values := [] }
  (errs, setIn acc.2 abs_ref_schema_id fk_loc_id
    { fkLoc := fkLoc, members := d.members, refers_to := d.refers_to })

/-- Number the elements of a list from 0 (Python `enumerate`). -/
def enum {α : Type} (l : List α) : List (Nat × α) :=
  (List.range l.length).zip l

/-- Method `bootstrap`: walk every feature location and every declaration in it,
accumulating errors and registrations.  The caller (the schema traversal
framework) supplies `keyList = keyRefs[self.triggerAttribute]`, the list
of schema-level occurrences of the trigger attribute.  The loop body is
total: errors are accumulated and returned, never raised. -/
def bootstrap (isabs : String → Bool) (urijoin : String → String → String)
    (eng : Engine) (refSchemaCache : List String) (keyList : List FeatureLoc)
    (w : FKWorld) : List BootError × FKWorld :=
  keyList.foldl
    (fun acc loc =>
      (enum loc.decls).foldl
        (fun acc2 p => bootstrapDecl isabs urijoin eng refSchemaCache loc p.1 p.2 acc2)
        acc)
    ([], w)

/-! ### Gathering (`validate`, lines 210-263) -/

/-- Insert an occurrence into an occurrence set: Python `set.add`, content
deduplicated. -/
def insertVal (s : List FKVals) (v : FKVals) : List FKVals :=
  if v ∈ s then s else s ++ [v]

/-- Process one declaration during gathering: resolve the target URI,
fetch (or defensively synthesize) the registered declaration, extract the
values, and add the `FKVals` occurrence. -/
def validateDecl (isabs : String → Bool) (urijoin : String → String → String)
    (eng : Engine) (schemaGid : String) (currentJSONFile : String)
    (value : JVal) (i : Nat) (d : FKDecl) (w : FKWorld) : FKWorld :=
  let fk_loc_id := schemaGid ++ "_" ++ toString i
  let abs_ref_schema_id := resolveRefSchemaId isabs urijoin eng.schemaURI d.schema_id
  let fkDefs := (lookupA w abs_ref_schema_id).getD []
  let fkDef :=
    match lookupA fkDefs fk_loc_id with
    | some fkDef => fkDef
    | none =>
      { fkLoc :=
          { schemaURI := eng.schemaURI
            refSchemaURI := abs_ref_schema_id
            path := "(unknown " ++ fk_loc_id ++ ")"
            values := [] }
        members := d.members
        refers_to := d.refers_to }
  let obtainedValues :=
    match fkDef.members with
    | .list ms => GetKeyValues value ms
    | .other _ => [[value]]
  let fkDef' :=
    { fkDef with
        fkLoc :=
          { fkDef.fkLoc with
              values := insertVal fkDef.fkLoc.values
                { values := obtainedValues, whereFile := currentJSONFile } } }
  setA w abs_ref_schema_id (setA fkDefs fk_loc_id fkDef')

/-- Method `validate`: gather the foreign-key values of one checked JSON value.
The source generator yields nothing (`if False: yield`): the returned
error list is always empty, all judgment is deferred to the second pass. -/
def validate (isabs : String → Bool) (urijoin : String → String → String)
    (eng : Engine) (schemaGid : String) (currentJSONFile : String)
    (fk_defs : List FKDecl) (value : JVal) (w : FKWorld) :
    List SPError × FKWorld :=
  ([],
    (enum fk_defs).foldl
      (fun w2 p => validateDecl isabs urijoin eng schemaGid currentJSONFile value p.1 p.2 w2)
      w)

/-! ### Lifecycle (`forget` lines 265-282, `cleanup` lines 484-489) -/

/-- Method `forget`: drop, from every declaration's occurrence set across every
target schema, the occurrences gathered from `the_json_file`; report
whether anything was dropped. -/
def forget (the_json_file : String) (w : FKWorld) : Bool × FKWorld :=
  w.foldl
    (fun (acc : Bool × FKWorld) entry =>
      let processed := entry.2.map (fun p =>
        (p.1,
          { p.2 with
              fkLoc :=
                { p.2.fkLoc with
                    values := p.2.fkLoc.values.filter
                      (fun fkVals => fkVals.whereFile ≠ the_json_file) } }))
      let removedHere := entry.2.any (fun p =>
        p.2.fkLoc.values.any (fun fkVals => fkVals.whereFile = the_json_file))
      (acc.1 || removedHere, acc.2 ++ [(entry.1, processed)]))
    (false, [])

/-- Method `cleanup`: clear every occurrence set, keeping every registration. -/
def cleanup (w : FKWorld) : FKWorld :=
  w.map (fun entry =>
    (entry.1, entry.2.map (fun p =>
      (p.1, { p.2 with fkLoc := { p.2.fkLoc with values := [] } }))))

/-! ### The primary-key view consumed by the second pass

`IndexDef`, `IndexedValues` and `IndexContext` live in `index_check.py` /
`pk_check.py`, which are not under `src/`; the fields below are the ones
`doSecondPass` reads from them. -/

/-- Modelled from the spec: one primary-key declaration of the sibling
index/primary-key engine — its declared owning schema URI
(`pkDef.indexLoc.schemaURI`), its name, its accumulated canonical values
(`IndexedValues`, consulted only through membership), and its
scope-limiting flag. -/
structure IndexDef : Type where
  schemaURI : String
  name : String
  values : List KVal
  limit_scope : Bool
deriving DecidableEq, Repr

/-- Modelled from the spec: one per-schema check context of a validator
family; `doSecondPass` reads only its `index_world` of primary-key
declarations — the context's own schema URI is deliberately ignored
(source comment: nested keys from other schemas must be attributed to the
URI in their unique location). -/
structure CheckContext : Type where
  schemaURI : String
  index_world : List IndexDef
deriving DecidableEq, Repr

/-- The mapping from validator-family class name to the contexts it
produced, handed to `doSecondPass`. -/
abbrev ContextMap : Type := List (String × List CheckContext)

/-! ### Step A: consolidation of the primary-key view (lines 295-327)

`PKKeys` is a NamedTuple whose `vals` and `by_name` fields have MUTABLE
DEFAULT VALUES (`= []`, `= dict()`), evaluated once at class creation.
The only construction site, `PKKeys(schemaURI=..., limit_scope=...)`,
omits both fields, so every aggregate ever built shares the SAME list
object and the SAME dict object — class-level state that also persists
across calls.  The embedding makes that single shared pair explicit as
`SharedPK`; the per-URI hash then carries only the per-instance fields
(its key, the schema URI, and the `limit_scope` flag). -/

/-- The single list object and single dict object behind every `PKKeys`
aggregate (the shared mutable defaults of the NamedTuple). -/
structure SharedPK : Type where
  vals : List (List KVal)
  by_name : List (String × IndexDef)
deriving DecidableEq, Repr

/-- A fresh interpreter state: the defaults start out empty. -/
def SharedPK.empty : SharedPK := { vals := [], by_name := [] }

/-- Process one primary-key declaration of the stream: lazily create the
per-URI aggregate when the declaration has recorded values (fixing the
aggregate's `limit_scope` to this first declaration's flag), append the
values to the (shared) `vals`, and register the declaration under its
name in the (shared) `by_name` if the aggregate exists, first wins. -/
def stepAOne (acc : List (String × Bool) × SharedPK) (pkDef : IndexDef) :
    List (String × Bool) × SharedPK :=
  let (hash, sh) := acc
  let pkKeysExists := (lookupA hash pkDef.schemaURI).isSome
  if pkDef.values ≠ [] then
    let hash' :=
      if pkKeysExists then hash
      else hash ++ [(pkDef.schemaURI, pkDef.limit_scope)]
    let sh' := { sh with vals := sh.vals ++ [pkDef.values] }
    let sh'' :=
      if (lookupA sh'.by_name pkDef.name).isSome then sh'
      else { sh' with by_name := sh'.by_name ++ [(pkDef.name, pkDef)] }
    (hash', sh'')
  else
    if pkKeysExists then
      (hash,
        if (lookupA sh.by_name pkDef.name).isSome then sh
        else { sh with by_name := sh.by_name ++ [(pkDef.name, pkDef)] })
    else (hash, sh)

/-- The stream of primary-key declarations Step A walks: contexts of the
join class (`PrimaryKey` for `ForeignKey`), in mapping order, then their
`index_world` entries. -/
def pkDefStream (joinClassName : String) (ctxs : ContextMap) : List IndexDef :=
  ctxs.flatMap (fun p =>
    if p.1 = joinClassName then p.2.flatMap (fun c => c.index_world) else [])

/-- Step A: consolidate the primary-key view, starting from the current
state of the shared defaults.  Returns the per-URI hash (URI ↦
`limit_scope`) and the updated shared state. -/
def stepA (joinClassName : String) (sh : SharedPK) (ctxs : ContextMap) :
    List (String × Bool) × SharedPK :=
  (pkDefStream joinClassName ctxs).foldl stepAOne ([], sh)

/-! ### Step B: checking (lines 329-482) -/

/-- The running result of the second pass: the two document sets (Python
sets, modelled as insertion-deduplicated lists) and the error list. -/
structure SPRes : Type where
  uniqueWhere : List String
  uniqueFailedWhere : List String
  errors : List SPError
deriving DecidableEq, Repr

/-- Canonicalize one occurrence (lines 406-424): with scope limiting, the
occurrence's file is prepended as an implicit leading member and the
composite path is forced; otherwise a single-member single-value allowed
atomic value is kept as-is, and anything else goes through the
cross-product string generation. -/
def theValuesFor (limit_scope : Bool) (whereFile : String)
    (obtainedValues : List (List JVal)) : List KVal :=
  if limit_scope then
    (GenKeyStrings ([JVal.str whereFile] :: obtainedValues)).map KVal.str
  else
    match obtainedValues with
    | [[v]] =>
      match atomicKV v with
      | some a => [toKVal a]
      | none => (GenKeyStrings obtainedValues).map KVal.str
    | _ => (GenKeyStrings obtainedValues).map KVal.str

/-- The description of an `stale_fk` error for an unmatched value
(lines 441-448). -/
def unmatchingDesc (theValue : KVal) (whereFile refSchemaURI : String)
    (refers_to : Option String) : String :=
  "Unmatching FK (" ++ kvalStr theValue ++ ") in " ++ whereFile ++
    " to schema " ++ refSchemaURI ++ " (" ++
    (match refers_to with
     | none => "any primary key"
     | some name => "primary key " ++ name) ++ ")"

/-- The description of an `stale_fk` error when the named key was not
found (lines 379-384). -/
def unmatchableDesc (theValue : KVal) (whereFile refSchemaURI name : String) : String :=
  "Unmatchable FK (" ++ kvalStr theValue ++ ") in " ++ whereFile ++
    " to schema " ++ refSchemaURI ++ " (key " ++ name ++ " not found)"

/-- Check the occurrences of one declaration against a comparison set
(lines 403-452): canonicalize each occurrence, and emit one `stale_fk`
error per canonical value found in no value list of the comparison set. -/
def checkOccurrences (checkValuesList : List (List KVal)) (limit_scope : Bool)
    (refSchemaURI : String) (fkDef : FKDef) (acc : SPRes) : SPRes :=
  fkDef.fkLoc.values.foldl
    (fun acc2 fkVals =>
      let acc3 := { acc2 with uniqueWhere := addUnique acc2.uniqueWhere fkVals.whereFile }
      let theValues := theValuesFor limit_scope fkVals.whereFile fkVals.values
      theValues.foldl
        (fun acc4 fkString =>
          let found := checkValuesList.any (fun checkValues => fkString ∈ checkValues)
          if found then acc4
          else
            { acc4 with
                uniqueFailedWhere := addUnique acc4.uniqueFailedWhere fkVals.whereFile
                errors := acc4.errors ++
                  [{ reason := "stale_fk"
                     description := unmatchingDesc fkString fkVals.whereFile
                       refSchemaURI fkDef.refers_to
                     file := fkVals.whereFile
                     path := fkDef.fkLoc.path }] })
        acc3)
    acc

/-- The unconditional `stale_fk` errors for one occurrence when the named
key is missing (lines 369-388). -/
def unmatchableErrs (refSchemaURI name path : String) (occ : FKVals) : List SPError :=
  (theValuesFor false occ.whereFile occ.values).map (fun theValue0 =>
    { reason := "stale_fk"
      description := unmatchableDesc theValue0 occ.whereFile refSchemaURI name
      file := occ.whereFile
      path := path })

/-- The per-occurrence step of the missing-named-key branch
(lines 353-388): both sets get the document, and one error per canonical
value is appended unconditionally. -/
def namedMissStep (refSchemaURI name path : String) (acc : SPRes) (occ : FKVals) : SPRes :=
  { uniqueWhere := addUnique acc.uniqueWhere occ.whereFile
    uniqueFailedWhere := addUnique acc.uniqueFailedWhere occ.whereFile
    errors := acc.errors ++ unmatchableErrs refSchemaURI name path occ }

/-- Process one declaration when an aggregate exists for its target URI
(lines 341-452): a named target key is looked up in the (shared) by-name
table — missing means one unconditional `stale_fk` error per canonical
value of every occurrence, canonicalized with scope limiting off; found
means the comparison set is that key's value list under its own flag; an
unnamed reference checks against all the (shared) value lists under the
aggregate's flag. -/
def processFKDef (sh : SharedPK) (aggLimitScope : Bool) (refSchemaURI : String)
    (fkDef : FKDef) (acc : SPRes) : SPRes :=
  match fkDef.refers_to with
  | some name =>
    match lookupA sh.by_name name with
    | none =>
      fkDef.fkLoc.values.foldl (namedMissStep refSchemaURI name fkDef.fkLoc.path) acc
    | some uDef =>
      checkOccurrences [uDef.values] uDef.limit_scope refSchemaURI fkDef acc
  | none =>
    checkOccurrences sh.vals aggLimitScope refSchemaURI fkDef acc

/-- The dangling error record for one occurrence of one declaration
(lines 467-476). -/
def danglingErr (eng : Engine) (uri : String) (fkDef : FKDef) (occ : FKVals) : SPError :=
  { reason := eng.danglingReason
    description := "No available documents from " ++ uri ++
      " schema, required by " ++ eng.schemaURI
    file := occ.whereFile
    path := fkDef.fkLoc.path }

/-- The per-occurrence step of the dangling branch (lines 463-476). -/
def danglingStepOcc (eng : Engine) (uri : String) (d : FKDef) (acc : SPRes)
    (fkVals : FKVals) : SPRes :=
  { uniqueWhere := addUnique acc.uniqueWhere fkVals.whereFile
    uniqueFailedWhere := addUnique acc.uniqueFailedWhere fkVals.whereFile
    errors := acc.errors ++ [danglingErr eng uri d fkVals] }

/-- The per-declaration step of the dangling branch. -/
def danglingStepDef (eng : Engine) (uri : String) (acc : SPRes)
    (p : String × FKDef) : SPRes :=
  p.2.fkLoc.values.foldl (danglingStepOcc eng uri p.2) acc

/-- Process one target-schema URI of `FKWorld` (lines 334-476): with an
aggregate, check each declaration; without one, every occurrence of every
declaration is a dangling error. -/
def processURI (eng : Engine) (hash : List (String × Bool)) (sh : SharedPK)
    (acc : SPRes) (entry : String × List (String × FKDef)) : SPRes :=
  match lookupA hash entry.1 with
  | some aggLimitScope =>
    entry.2.foldl (fun acc2 p => processFKDef sh aggLimitScope entry.1 p.2 acc2) acc
  | none =>
    entry.2.foldl (danglingStepDef eng entry.1) acc

/-- Method `doSecondPass` (lines 285-482): consolidate the primary-key view
(Step A), then check every registered target URI (Step B), returning the
checked set, the failed set and the error list, together with the state
the shared class-level defaults are left in. -/
def doSecondPass (eng : Engine) (w : FKWorld) (sh : SharedPK)
    (ctxs : ContextMap) : SPRes × SharedPK :=
  let (hash, sh') := stepA eng.joinClassName sh ctxs
  (w.foldl (processURI eng hash sh') { uniqueWhere := [], uniqueFailedWhere := [], errors := [] },
    sh')

/-! ## Basic lemmas about the association-list operations -/

theorem lookupA_setA_self {α : Type} (l : List (String × α)) (k : String) (v : α) :
    lookupA (setA l k v) k = some v := by
  induction l with
  | nil => simp [setA, lookupA]
  | cons hd tl ih =>
    by_cases h : hd.1 = k
    · simp [setA, h, lookupA]
    · simp [setA, h, lookupA, ih]

theorem lookupA_setA_ne {α : Type} (l : List (String × α)) (k k' : String) (v : α)
    (h : k ≠ k') : lookupA (setA l k v) k' = lookupA l k' := by
  induction l with
  | nil => simp [setA, lookupA, h]
  | cons hd tl ih =>
    by_cases h2 : hd.1 = k
    · subst h2; simp [setA, lookupA, h]
    · simp [setA, h2, lookupA, ih]

theorem lookupA_append {α : Type} (l l' : List (String × α)) (k : String) :
    lookupA (l ++ l') k = ((lookupA l k).rec (lookupA l' k) (fun v => some v)) := by
  induction l with
  | nil => simp [lookupA]
  | cons hd tl ih =>
    by_cases h : hd.1 = k
    · simp [lookupA, h]
    · simp [lookupA, h, ih]

theorem lookupA_map_value {α β : Type} (l : List (String × α)) (g : α → β) (k : String) :
    lookupA (l.map (fun e => (e.1, g e.2))) k = (lookupA l k).map g := by
  induction l with
  | nil => simp [lookupA]
  | cons hd tl ih =>
    by_cases h : hd.1 = k
    · simp [lookupA, h]
    · simp [lookupA, h, ih]

/-- Looking a declaration up through both levels of `FKWorld`. -/
def lookupIn (w : FKWorld) (uri locId : String) : Option FKDef :=
  (lookupA w uri).bind (fun inner => lookupA inner locId)

theorem mem_addUnique {α : Type} [DecidableEq α] (l : List α) (x y : α) :
    y ∈ addUnique l x ↔ y ∈ l ∨ y = x := by
  unfold addUnique
  by_cases h : x ∈ l
  · simp only [if_pos h]
    constructor
    · exact Or.inl
    · rintro (hy | rfl) <;> [exact hy; exact h]
  · simp [if_neg h]

theorem mem_addUnique_self {α : Type} [DecidableEq α] (l : List α) (x : α) :
    x ∈ addUnique l x := (mem_addUnique l x x).mpr (Or.inr rfl)

theorem mem_addUnique_of_mem {α : Type} [DecidableEq α] {l : List α} {y : α} (x : α)
    (h : y ∈ l) : y ∈ addUnique l x := (mem_addUnique l x y).mpr (Or.inl h)

/-! ## C9: `cleanup` clears all occurrences and preserves the registry -/

theorem lookupA_cleanup (w : FKWorld) (uri : String) :
    lookupA (cleanup w) uri =
      (lookupA w uri).map (fun inner => inner.map (fun p =>
        (p.1, { p.2 with fkLoc := { p.2.fkLoc with values := [] } }))) := by
  unfold cleanup
  exact lookupA_map_value w _ uri

/-- C9: `cleanup()` empties every declaration's occurrence set across all
target schemas while leaving the Declaration Registry intact: looked up at
any target URI and site id, the registry after `cleanup` holds exactly the
declarations it held before, with the same location (owning URI, target
URI, path), members and target-key name, and with an empty occurrence
set. -/
theorem claim_C9_cleanup_clears_values_keeps_registry (w : FKWorld) (uri locId : String) :
    lookupIn (cleanup w) uri locId =
      (lookupIn w uri locId).map (fun d =>
        { d with fkLoc := { d.fkLoc with values := [] } }) := by
  unfold lookupIn
  rw [lookupA_cleanup]
  cases lookupA w uri with
  | none => rfl
  | some inner =>
    exact lookupA_map_value inner
      (fun d => { d with fkLoc := { d.fkLoc with values := [] } }) locId

/-! ## C7: `forget` removes exactly the occurrences of one document -/

/-- The per-entry transformation `forget` applies. -/
def forgetEntry (doc : String) (inner : List (String × FKDef)) : List (String × FKDef) :=
  inner.map (fun p =>
    (p.1,
      { p.2 with
          fkLoc :=
            { p.2.fkLoc with
                values := p.2.fkLoc.values.filter
                  (fun fkVals => fkVals.whereFile ≠ doc) } }))

/-- Whether an entry holds any occurrence of the document. -/
def entryHasDoc (doc : String) (inner : List (String × FKDef)) : Bool :=
  inner.any (fun p => p.2.fkLoc.values.any (fun fkVals => fkVals.whereFile = doc))

theorem forget_foldl (doc : String) (w : FKWorld) (b : Bool) (aw : FKWorld) :
    w.foldl
      (fun (acc : Bool × FKWorld) entry =>
        let processed := entry.2.map (fun p =>
          (p.1,
            { p.2 with
                fkLoc :=
                  { p.2.fkLoc with
                      values := p.2.fkLoc.values.filter
                        (fun fkVals => fkVals.whereFile ≠ doc) } }))
        let removedHere := entry.2.any (fun p =>
          p.2.fkLoc.values.any (fun fkVals => fkVals.whereFile = doc))
        (acc.1 || removedHere, acc.2 ++ [(entry.1, processed)]))
      (b, aw) =
    (b || w.any (fun entry => entryHasDoc doc entry.2),
     aw ++ w.map (fun entry => (entry.1, forgetEntry doc entry.2))) := by
  induction w generalizing b aw with
  | nil => simp
  | cons hd tl ih =>
    simp only [List.foldl_cons, List.any_cons, List.map_cons]
    rw [ih]
    simp [forgetEntry, entryHasDoc, Bool.or_assoc]

theorem forget_eq (doc : String) (w : FKWorld) :
    forget doc w =
      (w.any (fun entry => entryHasDoc doc entry.2),
       w.map (fun entry => (entry.1, forgetEntry doc entry.2))) := by
  unfold forget
  rw [forget_foldl]
  simp

/-- C7: `forget(doc)` removes, from every declaration's occurrence set
across every target schema, exactly the occurrences whose document
identifier is `doc` (the remaining occurrences, and every declaration with
its members, target URI, name and path, are unchanged — the lookup at any
URI and site id returns the same declaration with its occurrence list
filtered), and it returns `true` iff at least one occurrence was
removed. -/
theorem claim_C7_forget_exact (doc : String) (w : FKWorld) :
    (∀ uri locId,
      lookupIn (forget doc w).2 uri locId =
        (lookupIn w uri locId).map (fun d =>
          { d with
              fkLoc :=
                { d.fkLoc with
                    values := d.fkLoc.values.filter
                      (fun occ => occ.whereFile ≠ doc) } })) ∧
    ((forget doc w).1 = true ↔
      ∃ entry ∈ w, ∃ p ∈ entry.2, ∃ occ ∈ p.2.fkLoc.values, occ.whereFile = doc) := by
  constructor
  · intro uri locId
    rw [forget_eq]
    unfold lookupIn
    rw [show (w.map (fun entry => (entry.1, forgetEntry doc entry.2))) =
          (w.map (fun entry => (entry.1, forgetEntry doc entry.2))) from rfl,
        lookupA_map_value w (forgetEntry doc) uri]
    cases lookupA w uri with
    | none => rfl
    | some inner =>
      unfold forgetEntry
      exact lookupA_map_value inner
        (fun d =>
          { d with
              fkLoc :=
                { d.fkLoc with
                    values := d.fkLoc.values.filter
                      (fun occ => occ.whereFile ≠ doc) } }) locId
  · rw [forget_eq]
    simp [entryHasDoc]

/-! ## Bootstrap characterization (C5, C10) -/

theorem lookupIn_setIn_self (w : FKWorld) (uri locId : String) (d : FKDef) :
    lookupIn (setIn w uri locId d) uri locId = some d := by
  unfold lookupIn setIn
  rw [lookupA_setA_self]
  simp [lookupA_setA_self]

theorem lookupIn_setIn_ne (w : FKWorld) (uri' locId' uri locId : String) (d : FKDef)
    (h : locId' ≠ locId ∨ uri' ≠ uri) :
    lookupIn (setIn w uri' locId' d) uri locId = lookupIn w uri locId := by
  unfold lookupIn setIn
  by_cases huri : uri' = uri
  · subst huri
    rcases h with h | h
    · rw [lookupA_setA_self]
      cases hw : lookupA w uri' with
      | none => simp [hw, setA, lookupA, h]
      | some inner => simp [hw, lookupA_setA_ne _ _ _ _ h]
    · exact absurd rfl h
  · rw [lookupA_setA_ne _ _ _ _ huri]

/-- One (location, index, declaration) triple of the bootstrap walk. -/
abbrev BootTriple : Type := FeatureLoc × Nat × FKDecl

/-- The flattened stream of declarations `bootstrap` processes. -/
def bootstrapPairs (keyList : List FeatureLoc) : List BootTriple :=
  keyList.flatMap (fun loc => (enum loc.decls).map (fun p => (loc, p.1, p.2)))

/-- The site id `str(id(loc.context)) + "_" + str(fk_loc_i)` of a
triple. -/
def siteIdOf (t : BootTriple) : String := t.1.contextId ++ "_" ++ toString t.2.1

/-- The error contribution of one bootstrap triple. -/
def bootErrFor (isabs : String → Bool) (urijoin : String → String → String)
    (eng : Engine) (refSchemaCache : List String) (t : BootTriple) : List BootError :=
  let abs_ref_schema_id := resolveRefSchemaId isabs urijoin eng.schemaURI t.2.2.schema_id
  if abs_ref_schema_id ∈ refSchemaCache then []
  else
    [{ reason := "fk_no_schema"
       description := "No schema with " ++ abs_ref_schema_id ++
         " id, required by " ++ eng.jsonSchemaSource ++
         " (" ++ eng.schemaURI ++ ")" }]

/-- The declaration a bootstrap triple registers. -/
def bootDefFor (isabs : String → Bool) (urijoin : String → String → String)
    (eng : Engine) (t : BootTriple) : FKDef :=
  { fkLoc :=
      { schemaURI := eng.schemaURI
        refSchemaURI := resolveRefSchemaId isabs urijoin eng.schemaURI t.2.2.schema_id
        path := t.1.path ++ "/" ++ toString t.2.1
        values := [] }
    members := t.2.2.members
    refers_to := t.2.2.refers_to }

theorem bootstrapDecl_eq (isabs : String → Bool) (urijoin : String → String → String)
    (eng : Engine) (cache : List String) (t : BootTriple) (acc : List BootError × FKWorld) :
    bootstrapDecl isabs urijoin eng cache t.1 t.2.1 t.2.2 acc =
      (acc.1 ++ bootErrFor isabs urijoin eng cache t,
       setIn acc.2 (resolveRefSchemaId isabs urijoin eng.schemaURI t.2.2.schema_id)
         (siteIdOf t) (bootDefFor isabs urijoin eng t)) := by
  unfold bootstrapDecl bootErrFor bootDefFor siteIdOf
  by_cases h : resolveRefSchemaId isabs urijoin eng.schemaURI t.2.2.schema_id ∈ cache
  · simp [h]
  · simp [h]

/-- The fold of `bootstrapDecl` over a triple stream. -/
def bootFold (isabs : String → Bool) (urijoin : String → String → String)
    (eng : Engine) (cache : List String) (acc : List BootError × FKWorld)
    (ts : List BootTriple) : List BootError × FKWorld :=
  ts.foldl (fun acc2 t => bootstrapDecl isabs urijoin eng cache t.1 t.2.1 t.2.2 acc2) acc

theorem bootstrap_foldl_acc (isabs : String → Bool) (urijoin : String → String → String)
    (eng : Engine) (cache : List String) (keyList : List FeatureLoc) :
    ∀ acc : List BootError × FKWorld,
      keyList.foldl
        (fun acc loc =>
          (enum loc.decls).foldl
            (fun acc2 p => bootstrapDecl isabs urijoin eng cache loc p.1 p.2 acc2) acc)
        acc =
      bootFold isabs urijoin eng cache acc (bootstrapPairs keyList) := by
  induction keyList with
  | nil => intro acc; rfl
  | cons loc rest ih =>
    intro acc
    simp only [List.foldl_cons]
    rw [ih]
    unfold bootFold bootstrapPairs
    simp only [List.flatMap_cons, List.foldl_append, List.foldl_map]

theorem bootstrap_eq_bootFold (isabs : String → Bool) (urijoin : String → String → String)
    (eng : Engine) (cache : List String) (keyList : List FeatureLoc) (w : FKWorld) :
    bootstrap isabs urijoin eng cache keyList w =
      bootFold isabs urijoin eng cache ([], w) (bootstrapPairs keyList) := by
  unfold bootstrap
  exact bootstrap_foldl_acc isabs urijoin eng cache keyList ([], w)

theorem bootFold_errors (isabs : String → Bool) (urijoin : String → String → String)
    (eng : Engine) (cache : List String) (ts : List BootTriple)
    (acc : List BootError × FKWorld) :
    (bootFold isabs urijoin eng cache acc ts).1 =
      acc.1 ++ ts.flatMap (bootErrFor isabs urijoin eng cache) := by
  induction ts generalizing acc with
  | nil => simp [bootFold]
  | cons t rest ih =>
    unfold bootFold
    simp only [List.foldl_cons, List.flatMap_cons]
    rw [show (rest.foldl (fun acc2 t' =>
        bootstrapDecl isabs urijoin eng cache t'.1 t'.2.1 t'.2.2 acc2)
        (bootstrapDecl isabs urijoin eng cache t.1 t.2.1 t.2.2 acc)) =
        bootFold isabs urijoin eng cache
          (bootstrapDecl isabs urijoin eng cache t.1 t.2.1 t.2.2 acc) rest from rfl]
    rw [ih, bootstrapDecl_eq]
    simp

theorem bootFold_preserves (isabs : String → Bool) (urijoin : String → String → String)
    (eng : Engine) (cache : List String) (ts : List BootTriple)
    (acc : List BootError × FKWorld) (uri locId : String)
    (h : ∀ t ∈ ts, siteIdOf t ≠ locId) :
    lookupIn (bootFold isabs urijoin eng cache acc ts).2 uri locId =
      lookupIn acc.2 uri locId := by
  induction ts generalizing acc with
  | nil => simp [bootFold]
  | cons t rest ih =>
    unfold bootFold
    simp only [List.foldl_cons]
    rw [show (rest.foldl (fun acc2 t' =>
        bootstrapDecl isabs urijoin eng cache t'.1 t'.2.1 t'.2.2 acc2)
        (bootstrapDecl isabs urijoin eng cache t.1 t.2.1 t.2.2 acc)) =
        bootFold isabs urijoin eng cache
          (bootstrapDecl isabs urijoin eng cache t.1 t.2.1 t.2.2 acc) rest from rfl]
    rw [ih _ (fun t' ht' => h t' (List.mem_cons_of_mem _ ht'))]
    rw [bootstrapDecl_eq]
    exact lookupIn_setIn_ne _ _ _ _ _ _ (Or.inl (h t (List.mem_cons_self _ _)))

theorem bootFold_registers (isabs : String → Bool) (urijoin : String → String → String)
    (eng : Engine) (cache : List String) (ts : List BootTriple)
    (acc : List BootError × FKWorld)
    (hnodup : (ts.map siteIdOf).Nodup) :
    ∀ t ∈ ts,
      lookupIn (bootFold isabs urijoin eng cache acc ts).2
          (resolveRefSchemaId isabs urijoin eng.schemaURI t.2.2.schema_id) (siteIdOf t) =
        some (bootDefFor isabs urijoin eng t) := by
  induction ts generalizing acc with
  | nil => intro t ht; cases ht
  | cons t0 rest ih =>
    intro t ht
    have hsplit : (List.map siteIdOf (t0 :: rest)).Nodup := hnodup
    simp only [List.map_cons, List.nodup_cons] at hsplit
    unfold bootFold
    simp only [List.foldl_cons]
    rw [show (rest.foldl (fun acc2 t' =>
        bootstrapDecl isabs urijoin eng cache t'.1 t'.2.1 t'.2.2 acc2)
        (bootstrapDecl isabs urijoin eng cache t0.1 t0.2.1 t0.2.2 acc)) =
        bootFold isabs urijoin eng cache
          (bootstrapDecl isabs urijoin eng cache t0.1 t0.2.1 t0.2.2 acc) rest from rfl]
    rcases List.mem_cons.mp ht with rfl | hrest
    · rw [bootFold_preserves]
      · rw [bootstrapDecl_eq]
        exact lookupIn_setIn_self _ _ _ _
      · intro t' ht' heq
        exact hsplit.1 (heq ▸ List.mem_map_of_mem siteIdOf ht')
    · exact ih _ hsplit.2 t hrest

/-- C5: for every declaration processed by bootstrap, the target schema id
is resolved by joining against the declaring schema's URI when that URI is
absolute and kept as-is otherwise; a `fk_no_schema` error naming the
missing schema and the declaring schema is emitted exactly when the
resolved id is not in the schema catalogue; and the declaration is still
registered (under the resolved target URI, keyed by the site id derived
from the declaring context's identity and the array position, with the
declaration's path, members and target-key name).  The returned error
list is the accumulation over all declarations, and the embedding is a
total function — no exception path exists. -/
theorem claim_C5_bootstrap (isabs : String → Bool) (urijoin : String → String → String)
    (eng : Engine) (cache : List String) (keyList : List FeatureLoc) (w : FKWorld)
    (hnodup : ((bootstrapPairs keyList).map siteIdOf).Nodup) :
    (∀ r, resolveRefSchemaId isabs urijoin eng.schemaURI (some r) =
        if isabs eng.schemaURI then urijoin eng.schemaURI r else r) ∧
    (bootstrap isabs urijoin eng cache keyList w).1 =
      (bootstrapPairs keyList).flatMap (bootErrFor isabs urijoin eng cache) ∧
    (∀ t ∈ bootstrapPairs keyList,
      (bootErrFor isabs urijoin eng cache t =
        (if resolveRefSchemaId isabs urijoin eng.schemaURI t.2.2.schema_id ∈ cache then []
         else
          [{ reason := "fk_no_schema"
             description := "No schema with " ++
               resolveRefSchemaId isabs urijoin eng.schemaURI t.2.2.schema_id ++
               " id, required by " ++ eng.jsonSchemaSource ++
               " (" ++ eng.schemaURI ++ ")" }])) ∧
      lookupIn (bootstrap isabs urijoin eng cache keyList w).2
          (resolveRefSchemaId isabs urijoin eng.schemaURI t.2.2.schema_id) (siteIdOf t) =
        some (bootDefFor isabs urijoin eng t)) := by
  refine ⟨fun r => rfl, ?_, fun t ht => ⟨rfl, ?_⟩⟩
  · rw [bootstrap_eq_bootFold, bootFold_errors]
    rfl
  · rw [bootstrap_eq_bootFold]
    exact bootFold_registers isabs urijoin eng cache _ _ hnodup t ht

/-- Witness for C5 at a concrete input: one schema context with two
declarations, the second referring to a missing schema. -/
theorem claim_C5_bootstrap_witness :
    ((bootstrapPairs [⟨"ctx1", "/fk", [⟨none, .list ["m"], none⟩,
        ⟨some "other", .list ["n"], some "pk"⟩]⟩]).map siteIdOf).Nodup ∧
    (bootstrap (fun _ => true) (fun a b => a ++ "/" ++ b)
        (ForeignKeyEngine "uriS" "s.json") ["uriS"]
        [⟨"ctx1", "/fk", [⟨none, .list ["m"], none⟩,
          ⟨some "other", .list ["n"], some "pk"⟩]⟩] []).1 =
      [{ reason := "fk_no_schema"
         description := "No schema with uriS/other id, required by s.json (uriS)" }] := by
  constructor
  · decide
  · have h := claim_C5_bootstrap (fun _ => true) (fun a b => a ++ "/" ++ b)
      (ForeignKeyEngine "uriS" "s.json") ["uriS"]
      [⟨"ctx1", "/fk", [⟨none, .list ["m"], none⟩,
        ⟨some "other", .list ["n"], some "pk"⟩]⟩] [] (by decide)
    rw [h.2.1]
    decide

/-! ## Gathering characterization (C8, C10) -/

/-- The site id used during gathering: `str(id(schema)) + "_" + i`. -/
def siteIdV (gid : String) (i : Nat) : String := gid ++ "_" ++ toString i

/-- The declaration `validateDecl` addresses: the registered one when the
site id is known, else the defensively synthesized one. -/
def addressedDef (isabs : String → Bool) (urijoin : String → String → String)
    (eng : Engine) (gid : String) (i : Nat) (d : FKDecl) (w : FKWorld) : FKDef :=
  let abs_ref_schema_id := resolveRefSchemaId isabs urijoin eng.schemaURI d.schema_id
  match lookupA ((lookupA w abs_ref_schema_id).getD []) (siteIdV gid i) with
  | some fkDef => fkDef
  | none =>
    { fkLoc :=
        { schemaURI := eng.schemaURI
          refSchemaURI := abs_ref_schema_id
          path := "(unknown " ++ siteIdV gid i ++ ")"
          values := [] }
      members := d.members
      refers_to := d.refers_to }

/-- Value extraction (lines 255-258): one value sequence per member when
the member list is a proper list, else the whole value as a single-member
single-value key. -/
def extractedValues (value : JVal) (m : Members) : List (List JVal) :=
  match m with
  | .list ms => GetKeyValues value ms
  | .other _ => [[value]]

theorem validateDecl_eq (isabs : String → Bool) (urijoin : String → String → String)
    (eng : Engine) (gid file : String) (value : JVal) (i : Nat) (d : FKDecl)
    (w : FKWorld) :
    validateDecl isabs urijoin eng gid file value i d w =
      (let abs := resolveRefSchemaId isabs urijoin eng.schemaURI d.schema_id
       let fkDef := addressedDef isabs urijoin eng gid i d w
       setA w abs (setA ((lookupA w abs).getD []) (siteIdV gid i)
        { fkDef with
            fkLoc :=
              { fkDef.fkLoc with
                  values := insertVal fkDef.fkLoc.values
                    { values := extractedValues value fkDef.members
                      whereFile := file } } })) := rfl

theorem validateDecl_addressed (isabs : String → Bool) (urijoin : String → String → String)
    (eng : Engine) (gid file : String) (value : JVal) (i : Nat) (d : FKDecl)
    (w : FKWorld) :
    lookupIn (validateDecl isabs urijoin eng gid file value i d w)
        (resolveRefSchemaId isabs urijoin eng.schemaURI d.schema_id) (siteIdV gid i) =
      some
        (let fkDef := addressedDef isabs urijoin eng gid i d w
         { fkDef with
             fkLoc :=
               { fkDef.fkLoc with
                   values := insertVal fkDef.fkLoc.values
                     { values := extractedValues value fkDef.members
                       whereFile := file } } }) := by
  rw [validateDecl_eq]
  unfold lookupIn
  rw [lookupA_setA_self]
  simp [lookupA_setA_self]

theorem validateDecl_frame (isabs : String → Bool) (urijoin : String → String → String)
    (eng : Engine) (gid file : String) (value : JVal) (i : Nat) (d : FKDecl)
    (w : FKWorld) (uri locId : String)
    (h : uri ≠ resolveRefSchemaId isabs urijoin eng.schemaURI d.schema_id ∨
         locId ≠ siteIdV gid i) :
    lookupIn (validateDecl isabs urijoin eng gid file value i d w) uri locId =
      lookupIn w uri locId := by
  rw [validateDecl_eq]
  unfold lookupIn
  by_cases huri : uri = resolveRefSchemaId isabs urijoin eng.schemaURI d.schema_id
  · rcases h with h | h
    · exact absurd huri h
    · rw [huri, lookupA_setA_self]
      cases hw : lookupA w (resolveRefSchemaId isabs urijoin eng.schemaURI d.schema_id) with
      | none => simp [hw, setA, lookupA, Ne.symm h]
      | some inner => simp [hw, lookupA_setA_ne _ _ _ _ (Ne.symm h)]
  · rw [lookupA_setA_ne _ _ _ _ (Ne.symm huri)]

/-- C8: gathering never fails and never reports an error: `validate`
returns an empty error list, and its only effect is to insert into the
addressed declaration's occurrence set the one occurrence built from the
extracted values (one value sequence per member when the declaration's
member list is a proper list, the whole value as a single-member
single-value key otherwise) and the current document id — every other
(target URI, site id) address is untouched, and inserting an occurrence
content-equal to a present one leaves the set unchanged. -/
theorem claim_C8_validate_gathers (isabs : String → Bool)
    (urijoin : String → String → String) (eng : Engine) (gid file : String)
    (value : JVal) (d : FKDecl) (w : FKWorld) :
    (validate isabs urijoin eng gid file [d] value w).1 = [] ∧
    lookupIn (validate isabs urijoin eng gid file [d] value w).2
        (resolveRefSchemaId isabs urijoin eng.schemaURI d.schema_id) (siteIdV gid 0) =
      some
        (let fkDef := addressedDef isabs urijoin eng gid 0 d w
         { fkDef with
             fkLoc :=
               { fkDef.fkLoc with
                   values := insertVal fkDef.fkLoc.values
                     { values := extractedValues value fkDef.members
                       whereFile := file } } }) ∧
    ((let fkDef := addressedDef isabs urijoin eng gid 0 d w
      ({ values := extractedValues value fkDef.members, whereFile := file } : FKVals) ∈
        fkDef.fkLoc.values) →
      (let fkDef := addressedDef isabs urijoin eng gid 0 d w
       insertVal fkDef.fkLoc.values
          { values := extractedValues value fkDef.members, whereFile := file } =
        fkDef.fkLoc.values)) ∧
    (∀ uri locId,
      uri ≠ resolveRefSchemaId isabs urijoin eng.schemaURI d.schema_id ∨
        locId ≠ siteIdV gid 0 →
      lookupIn (validate isabs urijoin eng gid file [d] value w).2 uri locId =
        lookupIn w uri locId) := by
  have hval : (validate isabs urijoin eng gid file [d] value w).2 =
      validateDecl isabs urijoin eng gid file value 0 d w := rfl
  refine ⟨rfl, ?_, ?_, ?_⟩
  · rw [hval]
    exact validateDecl_addressed isabs urijoin eng gid file value 0 d w
  · intro hmem
    simp only [insertVal, if_pos hmem]
  · intro uri locId h
    rw [hval]
    exact validateDecl_frame isabs urijoin eng gid file value 0 d w uri locId h

/-- Witness for C8 at a concrete input: fresh world, one declaration with
a one-member list, a document with a matching field; gathering twice shows
the dedup no-op. -/
theorem claim_C8_validate_gathers_witness :
    (validate (fun _ => true) (fun a b => a ++ b) (ForeignKeyEngine "u" "s")
        "g" "doc" [⟨none, .list ["m"], none⟩] (.obj [("m", .str "x")]) []).1 = [] ∧
    lookupIn (validate (fun _ => true) (fun a b => a ++ b) (ForeignKeyEngine "u" "s")
        "g" "doc" [⟨none, .list ["m"], none⟩] (.obj [("m", .str "x")]) []).2
        "u" (siteIdV "g" 0) =
      some ⟨⟨"u", "u", "(unknown g_0)", [⟨[[.str "x"]], "doc"⟩]⟩, .list ["m"], none⟩ ∧
    lookupIn (validate (fun _ => true) (fun a b => a ++ b) (ForeignKeyEngine "u" "s")
        "g" "doc" [⟨none, .list ["m"], none⟩] (.obj [("m", .str "x")]) []).2
        "other" "g_0" = none := by
  have h := claim_C8_validate_gathers (fun _ => true) (fun a b => a ++ b)
    (ForeignKeyEngine "u" "s") "g" "doc" (.obj [("m", .str "x")])
    ⟨none, .list ["m"], none⟩ []
  refine ⟨h.1, ?_, ?_⟩
  · exact h.2.1.trans (by decide)
  · exact (h.2.2.2 "other" "g_0" (Or.inl (by decide))).trans rfl

/-- C10: a declaration that omits `schema_id` resolves its target schema
URI to the declaring schema's own URI, in resolution itself, in bootstrap
registration, and in gathering: the registration and the gathered
occurrence land under the declaring schema's URI in `FKWorld`, so the
second pass checks them against that URI's primary keys. -/
theorem claim_C10_omitted_schema_id_is_self (isabs : String → Bool)
    (urijoin : String → String → String) (u src cid pth gid file : String)
    (ms : Members) (rt : Option String) (cache : List String) (value : JVal)
    (w : FKWorld) :
    resolveRefSchemaId isabs urijoin u none = u ∧
    lookupIn (bootstrap isabs urijoin (ForeignKeyEngine u src) cache
        [⟨cid, pth, [⟨none, ms, rt⟩]⟩] w).2 u (cid ++ "_" ++ toString 0) =
      some ⟨⟨u, u, pth ++ "/" ++ toString 0, []⟩, ms, rt⟩ ∧
    lookupIn (validate isabs urijoin (ForeignKeyEngine u src) gid file
        [⟨none, ms, rt⟩] value w).2 u (siteIdV gid 0) =
      some
        (let fkDef := addressedDef isabs urijoin (ForeignKeyEngine u src) gid 0
          ⟨none, ms, rt⟩ w
         { fkDef with
             fkLoc :=
               { fkDef.fkLoc with
                   values := insertVal fkDef.fkLoc.values
                     { values := extractedValues value fkDef.members
                       whereFile := file } } }) := by
  refine ⟨rfl, ?_, ?_⟩
  · have hpairs : bootstrapPairs [⟨cid, pth, [⟨none, ms, rt⟩]⟩] =
        [(⟨cid, pth, [⟨none, ms, rt⟩]⟩, 0, ⟨none, ms, rt⟩)] := rfl
    have hfold : bootFold isabs urijoin (ForeignKeyEngine u src) cache ([], w)
        [(⟨cid, pth, [⟨none, ms, rt⟩]⟩, 0, ⟨none, ms, rt⟩)] =
      bootstrapDecl isabs urijoin (ForeignKeyEngine u src) cache
        ⟨cid, pth, [⟨none, ms, rt⟩]⟩ 0 ⟨none, ms, rt⟩ ([], w) := rfl
    rw [bootstrap_eq_bootFold, hpairs, hfold,
      bootstrapDecl_eq isabs urijoin (ForeignKeyEngine u src) cache
        (⟨cid, pth, [⟨none, ms, rt⟩]⟩, 0, ⟨none, ms, rt⟩) ([], w)]
    exact lookupIn_setIn_self _ _ _ _
  · exact validateDecl_addressed isabs urijoin (ForeignKeyEngine u src) gid file
      value 0 ⟨none, ms, rt⟩ w

/-! ## Generic fold lemmas for the second pass -/

theorem foldl_errors {α : Type} (f : SPRes → α → SPRes) (g : α → List SPError)
    (hstep : ∀ acc x, (f acc x).errors = acc.errors ++ g x) :
    ∀ (l : List α) (acc : SPRes), (l.foldl f acc).errors = acc.errors ++ l.flatMap g := by
  intro l
  induction l with
  | nil => intro acc; simp
  | cons x xs ih =>
    intro acc
    simp only [List.foldl_cons, List.flatMap_cons]
    rw [ih, hstep]
    simp

theorem foldl_pred_preserved {α σ : Type} (f : σ → α → σ) (P : σ → Prop)
    (h : ∀ acc x, P acc → P (f acc x)) (l : List α) :
    ∀ acc : σ, P acc → P (l.foldl f acc) := by
  induction l with
  | nil => intro acc hacc; exact hacc
  | cons x xs ih => intro acc hacc; exact ih _ (h acc x hacc)

theorem foldl_pred_target {α σ : Type} (f : σ → α → σ) (P : σ → Prop)
    (hmono : ∀ acc x, P acc → P (f acc x)) (l : List α) (x : α) (hx : x ∈ l)
    (hstep : ∀ acc, P (f acc x)) : ∀ acc : σ, P (l.foldl f acc) := by
  induction l with
  | nil => cases hx
  | cons y ys ih =>
    intro acc
    rcases List.mem_cons.mp hx with rfl | hmem
    · exact foldl_pred_preserved f P hmono ys _ (hstep acc)
    · exact ih hmem _

theorem flatMap_ite_filter {α : Type} (p : α → Bool) (e : α → SPError) (l : List α) :
    (l.flatMap (fun x => if p x then [] else [e x])) =
      (l.filter (fun x => !p x)).map e := by
  induction l with
  | nil => rfl
  | cons x xs ih =>
    simp only [List.flatMap_cons, List.filter_cons]
    by_cases h : p x
    · simp [h, ih]
    · simp [h, ih]

/-! ## C3: the canonicalization and matching rule -/

/-- C3: canonicalization follows exactly the scope-limiting rule: with the
flag on, the occurrence's document id is prepended as an extra leading
member and the composite string rendering is always used; with the flag
off, a single-member single-value occurrence whose value is an allowed
primitive is kept as the value itself; every other case goes through the
cross-product rendering.  Checking a declaration's occurrences against a
comparison set appends exactly one `stale_fk` error per canonical value
that belongs to no value list of the comparison set. -/
theorem claim_C3_canonicalization_and_matching :
    (∀ (wf : String) (vals : List (List JVal)),
      theValuesFor true wf vals =
        (GenKeyStrings ([JVal.str wf] :: vals)).map KVal.str) ∧
    (∀ (wf : String) (v a : JVal), atomicKV v = some a →
      theValuesFor false wf [[v]] = [toKVal a]) ∧
    (∀ (wf : String) (vals : List (List JVal)),
      (∀ v, vals = [[v]] → atomicKV v = none) →
      theValuesFor false wf vals = (GenKeyStrings vals).map KVal.str) ∧
    (∀ (cvl : List (List KVal)) (limit : Bool) (refURI : String) (fkDef : FKDef)
        (acc : SPRes),
      (checkOccurrences cvl limit refURI fkDef acc).errors =
        acc.errors ++ fkDef.fkLoc.values.flatMap (fun fkVals =>
          ((theValuesFor limit fkVals.whereFile fkVals.values).filter
            (fun k => !(cvl.any (fun checkValues => k ∈ checkValues)))).map (fun k =>
            { reason := "stale_fk"
              description := unmatchingDesc k fkVals.whereFile refURI fkDef.refers_to
              file := fkVals.whereFile
              path := fkDef.fkLoc.path }))) := by
  refine ⟨fun wf vals => by simp [theValuesFor], ?_, ?_, ?_⟩
  · intro wf v a h
    simp [theValuesFor, h]
  · intro wf vals h
    match vals with
    | [] => rfl
    | [[]] => rfl
    | [[v]] => simp [theValuesFor, h v rfl]
    | [v :: v2 :: vrest] => rfl
    | l1 :: l2 :: lrest =>
      cases l1 with
      | nil => rfl
      | cons v vr => cases vr with
        | nil => rfl
        | cons v2 vr2 => rfl
  · intro cvl limit refURI fkDef acc
    have hinner : ∀ (fkVals : FKVals) (acc3 : SPRes),
        ((theValuesFor limit fkVals.whereFile fkVals.values).foldl
          (fun acc4 fkString =>
            let found := cvl.any (fun checkValues => fkString ∈ checkValues)
            if found then acc4
            else
              { acc4 with
                  uniqueFailedWhere := addUnique acc4.uniqueFailedWhere fkVals.whereFile
                  errors := acc4.errors ++
                    [{ reason := "stale_fk"
                       description := unmatchingDesc fkString fkVals.whereFile
                         refURI fkDef.refers_to
                       file := fkVals.whereFile
                       path := fkDef.fkLoc.path }] })
          acc3).errors =
        acc3.errors ++
          ((theValuesFor limit fkVals.whereFile fkVals.values).filter
            (fun k => !(cvl.any (fun checkValues => k ∈ checkValues)))).map (fun k =>
            { reason := "stale_fk"
              description := unmatchingDesc k fkVals.whereFile refURI fkDef.refers_to
              file := fkVals.whereFile
              path := fkDef.fkLoc.path }) := by
      intro fkVals acc3
      rw [foldl_errors _
        (fun fkString =>
          if cvl.any (fun checkValues => fkString ∈ checkValues) then []
          else
            [{ reason := "stale_fk"
               description := unmatchingDesc fkString fkVals.whereFile
                 refURI fkDef.refers_to
               file := fkVals.whereFile
               path := fkDef.fkLoc.path }])
        (fun acc4 fkString => by
          by_cases hf : cvl.any (fun checkValues => fkString ∈ checkValues)
          · simp [hf]
          · simp [hf])]
      rw [flatMap_ite_filter]
    unfold checkOccurrences
    rw [foldl_errors _
      (fun fkVals =>
        ((theValuesFor limit fkVals.whereFile fkVals.values).filter
          (fun k => !(cvl.any (fun checkValues => k ∈ checkValues)))).map (fun k =>
          { reason := "stale_fk"
            description := unmatchingDesc k fkVals.whereFile refURI fkDef.refers_to
            file := fkVals.whereFile
            path := fkDef.fkLoc.path }))
      (fun acc2 fkVals => by
        rw [hinner fkVals _])]

/-- Witness for C3 at concrete inputs: the atomic fast path keeps the raw
value; the non-atomic case goes through string generation; an unmatched
canonical value produces exactly its `stale_fk` error. -/
theorem claim_C3_witness :
    theValuesFor false "d" [[JVal.str "x"]] = [KVal.str "x"] ∧
    theValuesFor false "d" [[JVal.arr []]] =
      (GenKeyStrings [[JVal.arr []]]).map KVal.str ∧
    (checkOccurrences [[KVal.str "x"]] false "uriT"
        ⟨⟨"uriS", "uriT", "/fk/0", [⟨[[JVal.str "y"]], "doc1"⟩]⟩, .list ["m"], none⟩
        ⟨[], [], []⟩).errors =
      [{ reason := "stale_fk"
         description := "Unmatching FK (y) in doc1 to schema uriT (any primary key)"
         file := "doc1"
         path := "/fk/0" }] := by
  have h := claim_C3_canonicalization_and_matching
  refine ⟨(h.2.1 "d" (JVal.str "x") (JVal.str "x") rfl).trans (by decide), ?_, ?_⟩
  · exact h.2.2.1 "d" [[JVal.arr []]] (fun v hv => by
      cases hv; rfl)
  · rw [h.2.2.2 [[KVal.str "x"]] false "uriT"
      ⟨⟨"uriS", "uriT", "/fk/0", [⟨[[JVal.str "y"]], "doc1"⟩]⟩, .list ["m"], none⟩
      ⟨[], [], []⟩]
    decide

/-! ## C2: dangling errors when the target corpus is absent -/

theorem flatMap_singleton_eq_map {α β : Type} (f : α → β) (l : List α) :
    (l.flatMap fun x => [f x]) = l.map f := by
  induction l with
  | nil => rfl
  | cons x xs ih => simp [ih]

/-- Reduction of `processURI` when no aggregate exists for the entry's
URI. -/
theorem processURI_none (eng : Engine) (hash : List (String × Bool)) (sh : SharedPK)
    (acc : SPRes) (entry : String × List (String × FKDef))
    (hno : lookupA hash entry.1 = none) :
    processURI eng hash sh acc entry = entry.2.foldl (danglingStepDef eng entry.1) acc := by
  unfold processURI
  rw [hno]

/-- Reduction of `processURI` when an aggregate exists. -/
theorem processURI_some (eng : Engine) (hash : List (String × Bool)) (sh : SharedPK)
    (acc : SPRes) (entry : String × List (String × FKDef)) (flag : Bool)
    (hsome : lookupA hash entry.1 = some flag) :
    processURI eng hash sh acc entry =
      entry.2.foldl (fun acc2 p => processFKDef sh flag entry.1 p.2 acc2) acc := by
  unfold processURI
  rw [hsome]

/-- Reduction of `processFKDef` when the named key is missing. -/
theorem processFKDef_named_miss (sh : SharedPK) (aggLimitScope : Bool)
    (refSchemaURI name : String) (fkDef : FKDef) (acc : SPRes)
    (hname : fkDef.refers_to = some name)
    (hmiss : lookupA sh.by_name name = none) :
    processFKDef sh aggLimitScope refSchemaURI fkDef acc =
      fkDef.fkLoc.values.foldl
        (namedMissStep refSchemaURI name fkDef.fkLoc.path) acc := by
  unfold processFKDef
  rw [hname]
  show (match lookupA sh.by_name name with
    | none =>
      fkDef.fkLoc.values.foldl (namedMissStep refSchemaURI name fkDef.fkLoc.path) acc
    | some uDef =>
      checkOccurrences [uDef.values] uDef.limit_scope refSchemaURI fkDef acc) = _
  rw [hmiss]

theorem danglingStep_errors (eng : Engine) (uri : String)
    (defs : List (String × FKDef)) (acc : SPRes) :
    (defs.foldl (danglingStepDef eng uri) acc).errors =
      acc.errors ++ defs.flatMap (fun p =>
        p.2.fkLoc.values.map (danglingErr eng uri p.2)) := by
  rw [foldl_errors (danglingStepDef eng uri)
    (fun p => p.2.fkLoc.values.map (danglingErr eng uri p.2))
    (fun acc2 p => by
      unfold danglingStepDef
      rw [foldl_errors (danglingStepOcc eng uri p.2)
        (fun fkVals => [danglingErr eng uri p.2 fkVals])
        (fun acc3 fkVals => rfl)]
      rw [flatMap_singleton_eq_map])]

theorem danglingStep_mem_where (eng : Engine) (uri : String)
    (defs : List (String × FKDef)) (acc : SPRes) (p : String × FKDef)
    (hp : p ∈ defs) (occ : FKVals) (hocc : occ ∈ p.2.fkLoc.values) :
    occ.whereFile ∈ (defs.foldl (danglingStepDef eng uri) acc).uniqueWhere ∧
    occ.whereFile ∈ (defs.foldl (danglingStepDef eng uri) acc).uniqueFailedWhere := by
  constructor
  · refine foldl_pred_target (danglingStepDef eng uri)
      (fun a => occ.whereFile ∈ a.uniqueWhere)
      (fun acc2 q h2 => foldl_pred_preserved (danglingStepOcc eng uri q.2)
        (fun a => occ.whereFile ∈ a.uniqueWhere)
        (fun acc3 fkVals h3 => mem_addUnique_of_mem _ h3) _ _ h2)
      defs p hp (fun acc2 => ?_) acc
    exact foldl_pred_target (danglingStepOcc eng uri p.2)
      (fun a => occ.whereFile ∈ a.uniqueWhere)
      (fun acc3 fkVals h3 => mem_addUnique_of_mem _ h3)
      p.2.fkLoc.values occ hocc (fun acc3 => mem_addUnique_self _ _) acc2
  · refine foldl_pred_target (danglingStepDef eng uri)
      (fun a => occ.whereFile ∈ a.uniqueFailedWhere)
      (fun acc2 q h2 => foldl_pred_preserved (danglingStepOcc eng uri q.2)
        (fun a => occ.whereFile ∈ a.uniqueFailedWhere)
        (fun acc3 fkVals h3 => mem_addUnique_of_mem _ h3) _ _ h2)
      defs p hp (fun acc2 => ?_) acc
    exact foldl_pred_target (danglingStepOcc eng uri p.2)
      (fun a => occ.whereFile ∈ a.uniqueFailedWhere)
      (fun acc3 fkVals h3 => mem_addUnique_of_mem _ h3)
      p.2.fkLoc.values occ hocc (fun acc3 => mem_addUnique_self _ _) acc2

/-- C2: for a target URI with registered declarations but no primary-key
aggregate after Step A, `doSecondPass` emits exactly one dangling error
(reason `dangling_fk` for the `ForeignKey` subclass, never `stale_fk`) per
occurrence of every declaration under that URI, with the occurrence's
source document as `file` and the declaration's path as `path`, and every
such document lands in both the checked set and the failed set. -/
theorem claim_C2_dangling_when_no_aggregate (u src : String) (sh : SharedPK)
    (ctxs : ContextMap) (uri : String) (defs : List (String × FKDef))
    (hno : lookupA (stepA "PrimaryKey" sh ctxs).1 uri = none) :
    (doSecondPass (ForeignKeyEngine u src) [(uri, defs)] sh ctxs).1.errors =
      defs.flatMap (fun p => p.2.fkLoc.values.map
        (danglingErr (ForeignKeyEngine u src) uri p.2)) ∧
    (∀ e ∈ (doSecondPass (ForeignKeyEngine u src) [(uri, defs)] sh ctxs).1.errors,
      e.reason = "dangling_fk" ∧ e.reason ≠ "stale_fk") ∧
    (∀ p ∈ defs, ∀ occ ∈ p.2.fkLoc.values,
      occ.whereFile ∈ (doSecondPass (ForeignKeyEngine u src) [(uri, defs)] sh ctxs).1.uniqueWhere ∧
      occ.whereFile ∈ (doSecondPass (ForeignKeyEngine u src) [(uri, defs)] sh ctxs).1.uniqueFailedWhere) := by
  have hbranch : (doSecondPass (ForeignKeyEngine u src) [(uri, defs)] sh ctxs).1 =
      defs.foldl (danglingStepDef (ForeignKeyEngine u src) uri)
        { uniqueWhere := [], uniqueFailedWhere := [], errors := [] } := by
    show processURI (ForeignKeyEngine u src) (stepA "PrimaryKey" sh ctxs).1
        (stepA "PrimaryKey" sh ctxs).2
        { uniqueWhere := [], uniqueFailedWhere := [], errors := [] } (uri, defs) = _
    exact processURI_none _ _ _ _ _ hno
  refine ⟨by rw [hbranch, danglingStep_errors]; rfl, ?_, ?_⟩
  · intro e he
    rw [hbranch, danglingStep_errors] at he
    simp only [List.nil_append, List.mem_flatMap, List.mem_map] at he
    obtain ⟨p, hp, occ, hocc, rfl⟩ := he
    refine ⟨rfl, ?_⟩
    show ("dangling_fk" : String) ≠ "stale_fk"
    decide
  · intro p hp occ hocc
    rw [hbranch]
    exact danglingStep_mem_where (ForeignKeyEngine u src) uri defs _ p hp occ hocc

/-- Witness for C2 at a concrete input: one declaration with one
occurrence, a context stream with no primary keys for the target URI. -/
theorem claim_C2_dangling_when_no_aggregate_witness :
    (doSecondPass (ForeignKeyEngine "uriB" "b.json")
        [("uriC", [("s_0", ⟨⟨"uriB", "uriC", "/fk/0", [⟨[[.str "x"]], "B1"⟩]⟩,
          .list ["ref"], none⟩)])] SharedPK.empty
        [("PrimaryKey", [⟨"ctx", [⟨"uriA", "pk", [.str "x"], false⟩]⟩])]).1.errors =
      [{ reason := "dangling_fk"
         description := "No available documents from uriC schema, required by uriB"
         file := "B1"
         path := "/fk/0" }] ∧
    "B1" ∈ (doSecondPass (ForeignKeyEngine "uriB" "b.json")
        [("uriC", [("s_0", ⟨⟨"uriB", "uriC", "/fk/0", [⟨[[.str "x"]], "B1"⟩]⟩,
          .list ["ref"], none⟩)])] SharedPK.empty
        [("PrimaryKey", [⟨"ctx", [⟨"uriA", "pk", [.str "x"], false⟩]⟩])]).1.uniqueFailedWhere := by
  have h := claim_C2_dangling_when_no_aggregate "uriB" "b.json" SharedPK.empty
    [("PrimaryKey", [⟨"ctx", [⟨"uriA", "pk", [.str "x"], false⟩]⟩])] "uriC"
    [("s_0", ⟨⟨"uriB", "uriC", "/fk/0", [⟨[[.str "x"]], "B1"⟩]⟩, .list ["ref"], none⟩)]
    (by decide)
  refine ⟨h.1.trans (by decide), ?_⟩
  exact (h.2.2
    ("s_0", ⟨⟨"uriB", "uriC", "/fk/0", [⟨[[.str "x"]], "B1"⟩]⟩, .list ["ref"], none⟩)
    (by decide) ⟨[[.str "x"]], "B1"⟩ (by decide)).2

/-! ## C4: a named target key that does not exist -/

/-- C4: for a declaration whose `refers_to` names a key absent from the
by-name table consulted for the target URI, the second pass emits, for
each occurrence, one `stale_fk` error per canonical value — obtained by
the atomic/composite rule with scope limiting off (no document id
prepending) — whose description names the missing key, adds the document
to both the checked and failed sets, and attempts no comparison against
any value list (the errors are unconditional, independent of every
comparison set). -/
theorem claim_C4_named_key_not_found (u src : String) (sh : SharedPK)
    (ctxs : ContextMap) (uri locId name : String) (fkDef : FKDef)
    (flag : Bool)
    (hagg : lookupA (stepA "PrimaryKey" sh ctxs).1 uri = some flag)
    (hname : fkDef.refers_to = some name)
    (hmiss : lookupA (stepA "PrimaryKey" sh ctxs).2.by_name name = none) :
    (doSecondPass (ForeignKeyEngine u src) [(uri, [(locId, fkDef)])] sh ctxs).1.errors =
      fkDef.fkLoc.values.flatMap (unmatchableErrs uri name fkDef.fkLoc.path) ∧
    (∀ occ ∈ fkDef.fkLoc.values, unmatchableErrs uri name fkDef.fkLoc.path occ =
      (theValuesFor false occ.whereFile occ.values).map (fun v =>
        { reason := "stale_fk"
          description := unmatchableDesc v occ.whereFile uri name
          file := occ.whereFile
          path := fkDef.fkLoc.path })) ∧
    (∀ occ ∈ fkDef.fkLoc.values,
      occ.whereFile ∈ (doSecondPass (ForeignKeyEngine u src)
        [(uri, [(locId, fkDef)])] sh ctxs).1.uniqueWhere ∧
      occ.whereFile ∈ (doSecondPass (ForeignKeyEngine u src)
        [(uri, [(locId, fkDef)])] sh ctxs).1.uniqueFailedWhere) := by
  have hbranch : (doSecondPass (ForeignKeyEngine u src) [(uri, [(locId, fkDef)])] sh ctxs).1 =
      fkDef.fkLoc.values.foldl (namedMissStep uri name fkDef.fkLoc.path)
        { uniqueWhere := [], uniqueFailedWhere := [], errors := [] } := by
    show processURI (ForeignKeyEngine u src) (stepA "PrimaryKey" sh ctxs).1
        (stepA "PrimaryKey" sh ctxs).2
        { uniqueWhere := [], uniqueFailedWhere := [], errors := [] }
        (uri, [(locId, fkDef)]) = _
    rw [processURI_some _ _ _ _ _ flag hagg]
    show processFKDef (stepA "PrimaryKey" sh ctxs).2 flag uri fkDef
        { uniqueWhere := [], uniqueFailedWhere := [], errors := [] } = _
    exact processFKDef_named_miss _ flag uri name fkDef _ hname hmiss
  have herr : ∀ acc : SPRes,
      (fkDef.fkLoc.values.foldl (namedMissStep uri name fkDef.fkLoc.path) acc).errors =
        acc.errors ++ fkDef.fkLoc.values.flatMap (unmatchableErrs uri name fkDef.fkLoc.path) :=
    fun acc => foldl_errors (namedMissStep uri name fkDef.fkLoc.path)
      (unmatchableErrs uri name fkDef.fkLoc.path) (fun acc2 occ => rfl)
      fkDef.fkLoc.values acc
  refine ⟨by rw [hbranch, herr]; rfl, fun occ hocc => rfl, ?_⟩
  intro occ hocc
  rw [hbranch]
  constructor
  · exact foldl_pred_target (namedMissStep uri name fkDef.fkLoc.path)
      (fun a => occ.whereFile ∈ a.uniqueWhere)
      (fun acc2 fkVals h2 => mem_addUnique_of_mem _ h2)
      fkDef.fkLoc.values occ hocc (fun acc2 => mem_addUnique_self _ _) _
  · exact foldl_pred_target (namedMissStep uri name fkDef.fkLoc.path)
      (fun a => occ.whereFile ∈ a.uniqueFailedWhere)
      (fun acc2 fkVals h2 => mem_addUnique_of_mem _ h2)
      fkDef.fkLoc.values occ hocc (fun acc2 => mem_addUnique_self _ _) _

/-- Witness for C4 at a concrete input: a primary key named `pk` recorded
for the target URI, a declaration referring to the absent name `nope`. -/
theorem claim_C4_named_key_not_found_witness :
    (doSecondPass (ForeignKeyEngine "uriB" "b.json")
        [("uriA", [("s_0", ⟨⟨"uriB", "uriA", "/fk/0", [⟨[[.str "x"]], "B1"⟩]⟩,
          .list ["ref"], some "nope"⟩)])] SharedPK.empty
        [("PrimaryKey", [⟨"ctx", [⟨"uriA", "pk", [.str "x"], false⟩]⟩])]).1.errors =
      [{ reason := "stale_fk"
         description := "Unmatchable FK (x) in B1 to schema uriA (key nope not found)"
         file := "B1"
         path := "/fk/0" }] := by
  have h := claim_C4_named_key_not_found "uriB" "b.json" SharedPK.empty
    [("PrimaryKey", [⟨"ctx", [⟨"uriA", "pk", [.str "x"], false⟩]⟩])] "uriA" "s_0" "nope"
    ⟨⟨"uriB", "uriA", "/fk/0", [⟨[[.str "x"]], "B1"⟩]⟩, .list ["ref"], some "nope"⟩
    false (by decide) rfl (by decide)
  exact h.1.trans (by decide)

/-! ## C1: the consolidated primary-key view is NOT scoped per owning URI

`PKKeys.vals` and `PKKeys.by_name` are NamedTuple fields with mutable
default values, created once at class definition time; every aggregate is
constructed as `PKKeys(schemaURI=..., limit_scope=...)`, leaving both
fields at their shared defaults.  All per-URI aggregates therefore share
one value-list sequence and one by-name table, so the aggregate consulted
for one URI also contains the entries of every other URI. -/

/-- C1, evaluated at the failing input: two primary-key declarations with
recorded values under the distinct owning URIs `uriA` (value `x`) and
`uriB2` (value `y`).  After Step A both URIs have aggregates, yet the
value-list sequence each of them carries is the one shared list holding
BOTH declarations' value lists — and a foreign key under `uriB2` whose
occurrence value `x` is recorded only under `uriA` is accepted without any
error (empty error list, empty failed set), where per-owning-URI scoping
would require a `stale_fk` error. -/
theorem claim_C1_shared_aggregate_eval :
    (stepA "PrimaryKey" SharedPK.empty
        [("PrimaryKey", [⟨"ctx", [⟨"uriA", "ka", [.str "x"], false⟩,
          ⟨"uriB2", "kb", [.str "y"], false⟩]⟩])]).2.vals =
      [[KVal.str "x"], [KVal.str "y"]] ∧
    lookupA (stepA "PrimaryKey" SharedPK.empty
        [("PrimaryKey", [⟨"ctx", [⟨"uriA", "ka", [.str "x"], false⟩,
          ⟨"uriB2", "kb", [.str "y"], false⟩]⟩])]).1 "uriB2" = some false ∧
    (lookupA (stepA "PrimaryKey" SharedPK.empty
        [("PrimaryKey", [⟨"ctx", [⟨"uriA", "ka", [.str "x"], false⟩,
          ⟨"uriB2", "kb", [.str "y"], false⟩]⟩])]).2.by_name "ka").isSome ∧
    (doSecondPass (ForeignKeyEngine "uriF" "f.json")
        [("uriB2", [("s_0", ⟨⟨"uriF", "uriB2", "/fk/0", [⟨[[.str "x"]], "doc1"⟩]⟩,
          .list ["ref"], none⟩)])] SharedPK.empty
        [("PrimaryKey", [⟨"ctx", [⟨"uriA", "ka", [.str "x"], false⟩,
          ⟨"uriB2", "kb", [.str "y"], false⟩]⟩])]).1.errors = [] ∧
    (doSecondPass (ForeignKeyEngine "uriF" "f.json")
        [("uriB2", [("s_0", ⟨⟨"uriF", "uriB2", "/fk/0", [⟨[[.str "x"]], "doc1"⟩]⟩,
          .list ["ref"], none⟩)])] SharedPK.empty
        [("PrimaryKey", [⟨"ctx", [⟨"uriA", "ka", [.str "x"], false⟩,
          ⟨"uriB2", "kb", [.str "y"], false⟩]⟩])]).1.uniqueFailedWhere = [] := by
  refine ⟨?_, ?_, ?_, ?_, ?_⟩ <;> decide

/-! ## C6: idempotence of the second pass

`doSecondPass` leaves `FKWorld` untouched; the only state it mutates is
the pair of shared class-level defaults (`SharedPK`).  A second run with
the same contexts re-appends the same value lists (duplicates that cannot
change any membership test) and re-attempts the same by-name
registrations (all already present after the first run, so the table is
unchanged), while the per-run hash is rebuilt from scratch identically.
The lemmas below make each of those facts precise. -/

/-- The evolution of the per-run aggregate hash under one declaration:
independent of the shared state. -/
def hashStep (h : List (String × Bool)) (d : IndexDef) : List (String × Bool) :=
  if d.values ≠ [] then
    if (lookupA h d.schemaURI).isSome then h
    else h ++ [(d.schemaURI, d.limit_scope)]
  else h

/-- One by-name registration attempt: first wins. -/
def regStep (b : List (String × IndexDef)) (nd : String × IndexDef) :
    List (String × IndexDef) :=
  if (lookupA b nd.1).isSome then b else b ++ [nd]

theorem stepAOne_fst (acc : List (String × Bool) × SharedPK) (d : IndexDef) :
    (stepAOne acc d).1 = hashStep acc.1 d := by
  obtain ⟨h, s⟩ := acc
  by_cases hv : d.values = []
  · by_cases hk : (lookupA h d.schemaURI).isSome
    · simp [stepAOne, hashStep, hv, hk]
    · simp [stepAOne, hashStep, hv, hk]
  · by_cases hk : (lookupA h d.schemaURI).isSome
    · simp [stepAOne, hashStep, hv, hk]
    · simp [stepAOne, hashStep, hv, hk]

theorem stepAOne_vals (acc : List (String × Bool) × SharedPK) (d : IndexDef) :
    (stepAOne acc d).2.vals =
      acc.2.vals ++ (if d.values = [] then [] else [d.values]) := by
  obtain ⟨h, s⟩ := acc
  by_cases hv : d.values = []
  · by_cases hk : (lookupA h d.schemaURI).isSome
    · by_cases hn : (lookupA s.by_name d.name).isSome
      · simp [stepAOne, hv, hk, hn]
      · simp [stepAOne, hv, hk, hn]
    · simp [stepAOne, hv, hk]
  · by_cases hn : (lookupA s.by_name d.name).isSome
    · simp [stepAOne, hv, hn]
    · simp [stepAOne, hv, hn]

theorem stepAOne_by_name (acc : List (String × Bool) × SharedPK) (d : IndexDef) :
    (stepAOne acc d).2.by_name =
      if d.values ≠ [] ∨ (lookupA acc.1 d.schemaURI).isSome then
        regStep acc.2.by_name (d.name, d)
      else acc.2.by_name := by
  obtain ⟨h, s⟩ := acc
  by_cases hv : d.values = []
  · by_cases hk : (lookupA h d.schemaURI).isSome
    · by_cases hn : (lookupA s.by_name d.name).isSome
      · simp [stepAOne, regStep, hv, hk, hn]
      · simp [stepAOne, regStep, hv, hk, hn]
    · simp [stepAOne, regStep, hv, hk]
  · by_cases hn : (lookupA s.by_name d.name).isSome
    · simp [stepAOne, regStep, hv, hn]
    · simp [stepAOne, regStep, hv, hn]

theorem stepA_fold_fst (L : List IndexDef) :
    ∀ (h : List (String × Bool)) (s : SharedPK),
      (L.foldl stepAOne (h, s)).1 = L.foldl hashStep h := by
  induction L with
  | nil => intro h s; rfl
  | cons d L ih =>
    intro h s
    simp only [List.foldl_cons]
    have heta : stepAOne (h, s) d = ((stepAOne (h, s) d).1, (stepAOne (h, s) d).2) := rfl
    rw [heta, stepAOne_fst]
    exact ih _ _

/-- The value lists a Step A run appends to the shared list: exactly the
nonempty value lists of the stream, independent of every state. -/
def valsDeltaL (L : List IndexDef) : List (List KVal) :=
  L.filterMap (fun d => if d.values = [] then none else some d.values)

theorem stepA_fold_vals (L : List IndexDef) :
    ∀ (h : List (String × Bool)) (s : SharedPK),
      (L.foldl stepAOne (h, s)).2.vals = s.vals ++ valsDeltaL L := by
  induction L with
  | nil => intro h s; simp [valsDeltaL]
  | cons d L ih =>
    intro h s
    simp only [List.foldl_cons]
    have heta : stepAOne (h, s) d = ((stepAOne (h, s) d).1, (stepAOne (h, s) d).2) := rfl
    rw [heta, ih _ _, stepAOne_vals]
    unfold valsDeltaL
    by_cases hd : d.values = []
    · simp [hd, List.filterMap_cons]
    · simp [hd, List.filterMap_cons]

/-- The sequence of by-name registration attempts of a Step A run: a
declaration is attempted exactly when its aggregate exists at that point
(it has recorded values, or the per-run hash already holds its URI).
Depends only on the per-run hash, never on the shared state. -/
def attemptsA (h : List (String × Bool)) : List IndexDef → List (String × IndexDef)
  | [] => []
  | d :: L =>
    (if d.values ≠ [] ∨ (lookupA h d.schemaURI).isSome then [(d.name, d)] else []) ++
      attemptsA (hashStep h d) L

theorem attemptsA_cons (h : List (String × Bool)) (d : IndexDef) (L : List IndexDef) :
    attemptsA h (d :: L) =
      (if d.values ≠ [] ∨ (lookupA h d.schemaURI).isSome then [(d.name, d)] else []) ++
        attemptsA (hashStep h d) L := rfl

theorem stepA_fold_by_name (L : List IndexDef) :
    ∀ (h : List (String × Bool)) (s : SharedPK),
      (L.foldl stepAOne (h, s)).2.by_name =
        (attemptsA h L).foldl regStep s.by_name := by
  induction L with
  | nil => intro h s; rfl
  | cons d L ih =>
    intro h s
    simp only [List.foldl_cons]
    have heta : stepAOne (h, s) d = ((stepAOne (h, s) d).1, (stepAOne (h, s) d).2) := rfl
    rw [heta, stepAOne_fst, ih _ _, stepAOne_by_name]
    rw [attemptsA_cons, List.foldl_append]
    by_cases hc : d.values ≠ [] ∨ (lookupA h d.schemaURI).isSome
    · rw [if_pos hc, if_pos hc]
      rfl
    · rw [if_neg hc, if_neg hc]
      rfl

theorem lookupA_append_left {α : Type} (l l' : List (String × α)) (k : String)
    (h : (lookupA l k).isSome) : lookupA (l ++ l') k = lookupA l k := by
  rw [lookupA_append]
  cases hl : lookupA l k with
  | none => rw [hl] at h; cases h
  | some v => rfl

theorem regStep_mono (b : List (String × IndexDef)) (nd : String × IndexDef)
    (n : String) (h : (lookupA b n).isSome) :
    (lookupA (regStep b nd) n).isSome := by
  unfold regStep
  by_cases hk : (lookupA b nd.1).isSome
  · rw [if_pos hk]; exact h
  · rw [if_neg hk, lookupA_append_left _ _ _ h]
    exact h

theorem regFold_mono (as : List (String × IndexDef)) :
    ∀ (b : List (String × IndexDef)) (n : String), (lookupA b n).isSome →
      (lookupA (as.foldl regStep b) n).isSome := by
  induction as with
  | nil => intro b n h; exact h
  | cons nd as ih =>
    intro b n h
    exact ih _ _ (regStep_mono b nd n h)

theorem regStep_covers_self (b : List (String × IndexDef)) (nd : String × IndexDef) :
    (lookupA (regStep b nd) nd.1).isSome := by
  unfold regStep
  by_cases hk : (lookupA b nd.1).isSome
  · rw [if_pos hk]; exact hk
  · rw [if_neg hk, lookupA_append]
    cases hl : lookupA b nd.1 with
    | some v => rw [hl] at hk; exact absurd rfl hk
    | none => simp [lookupA]

theorem regFold_covers (as : List (String × IndexDef)) :
    ∀ (b : List (String × IndexDef)), ∀ nd ∈ as,
      (lookupA (as.foldl regStep b) nd.1).isSome := by
  induction as with
  | nil => intro b nd h; cases h
  | cons nd0 as ih =>
    intro b nd hnd
    rcases List.mem_cons.mp hnd with heq | hmem
    · subst heq
      simp only [List.foldl_cons]
      exact regFold_mono as (regStep b nd) nd.1 (regStep_covers_self b nd)
    · exact ih (regStep b nd0) nd hmem

theorem regFold_noop (as : List (String × IndexDef)) :
    ∀ (b : List (String × IndexDef)),
      (∀ nd ∈ as, (lookupA b nd.1).isSome) → as.foldl regStep b = b := by
  induction as with
  | nil => intro b _; rfl
  | cons nd0 as ih =>
    intro b hall
    simp only [List.foldl_cons]
    have h0 : regStep b nd0 = b := by
      unfold regStep
      rw [if_pos (hall nd0 (List.mem_cons_self _ _))]
    rw [h0]
    exact ih b (fun nd hnd => hall nd (List.mem_cons_of_mem _ hnd))

theorem regFold_idem (as : List (String × IndexDef)) (b : List (String × IndexDef)) :
    as.foldl regStep (as.foldl regStep b) = as.foldl regStep b :=
  regFold_noop as _ (fun nd hnd => regFold_covers as b nd hnd)

/-- Congruence of occurrence checking under comparison sets with the same
membership behavior. -/
theorem checkOccurrences_congr (cvl cvl' : List (List KVal)) (limit : Bool)
    (uri : String) (fkDef : FKDef) (acc : SPRes)
    (hagree : ∀ k : KVal, cvl.any (fun cv => k ∈ cv) = cvl'.any (fun cv => k ∈ cv)) :
    checkOccurrences cvl limit uri fkDef acc =
      checkOccurrences cvl' limit uri fkDef acc := by
  unfold checkOccurrences
  refine List.foldl_ext _ _ acc ?_
  intro acc2 fkVals _
  refine List.foldl_ext _ _ _ ?_
  intro acc4 fkString _
  have := hagree fkString
  simp only [this]

theorem processFKDef_congr (sh sh' : SharedPK) (aggLS : Bool) (uri : String)
    (fkDef : FKDef) (acc : SPRes)
    (hby : sh.by_name = sh'.by_name)
    (hvals : ∀ k : KVal, sh.vals.any (fun cv => k ∈ cv) = sh'.vals.any (fun cv => k ∈ cv)) :
    processFKDef sh aggLS uri fkDef acc = processFKDef sh' aggLS uri fkDef acc := by
  unfold processFKDef
  cases hrt : fkDef.refers_to with
  | none =>
    exact checkOccurrences_congr sh.vals sh'.vals aggLS uri fkDef acc hvals
  | some name =>
    rw [hby]

theorem processURI_congr (eng : Engine) (hash : List (String × Bool))
    (sh sh' : SharedPK) (acc : SPRes) (entry : String × List (String × FKDef))
    (hby : sh.by_name = sh'.by_name)
    (hvals : ∀ k : KVal, sh.vals.any (fun cv => k ∈ cv) = sh'.vals.any (fun cv => k ∈ cv)) :
    processURI eng hash sh acc entry = processURI eng hash sh' acc entry := by
  unfold processURI
  cases hlk : lookupA hash entry.1 with
  | none => rfl
  | some flag =>
    refine List.foldl_ext _ _ acc ?_
    intro acc2 p _
    exact processFKDef_congr sh sh' flag entry.1 p.2 acc2 hby hvals

/-- C6: `doSecondPass` is idempotent in its externally observable result:
with the engine state and the context mapping fixed, and no gathering,
`forget` or `cleanup` in between, a second call returns the same checked
set, the same failed set and an identical error list as the first — even
though the shared class-level defaults keep growing (the re-appended
value lists are duplicates that change no membership test, and every
by-name registration attempt of the second run is already present). -/
theorem claim_C6_doSecondPass_idempotent (eng : Engine) (w : FKWorld)
    (sh : SharedPK) (ctxs : ContextMap) :
    (doSecondPass eng w (doSecondPass eng w sh ctxs).2 ctxs).1 =
      (doSecondPass eng w sh ctxs).1 := by
  have hby :
      ((pkDefStream eng.joinClassName ctxs).foldl stepAOne
        ([], ((pkDefStream eng.joinClassName ctxs).foldl stepAOne ([], sh)).2)).2.by_name =
      ((pkDefStream eng.joinClassName ctxs).foldl stepAOne ([], sh)).2.by_name := by
    rw [stepA_fold_by_name, stepA_fold_by_name]
    exact regFold_idem _ _
  have hvals : ∀ k : KVal,
      (((pkDefStream eng.joinClassName ctxs).foldl stepAOne
        ([], ((pkDefStream eng.joinClassName ctxs).foldl stepAOne ([], sh)).2)).2.vals.any
          (fun cv => k ∈ cv)) =
      (((pkDefStream eng.joinClassName ctxs).foldl stepAOne ([], sh)).2.vals.any
          (fun cv => k ∈ cv)) := by
    intro k
    rw [stepA_fold_vals, stepA_fold_vals]
    simp [List.any_append, Bool.or_assoc]
  show (w.foldl (processURI eng
      ((pkDefStream eng.joinClassName ctxs).foldl stepAOne
        ([], ((pkDefStream eng.joinClassName ctxs).foldl stepAOne ([], sh)).2)).1
      ((pkDefStream eng.joinClassName ctxs).foldl stepAOne
        ([], ((pkDefStream eng.joinClassName ctxs).foldl stepAOne ([], sh)).2)).2)
      { uniqueWhere := [], uniqueFailedWhere := [], errors := [] }) =
    (w.foldl (processURI eng
      ((pkDefStream eng.joinClassName ctxs).foldl stepAOne ([], sh)).1
      ((pkDefStream eng.joinClassName ctxs).foldl stepAOne ([], sh)).2)
      { uniqueWhere := [], uniqueFailedWhere := [], errors := [] })
  rw [stepA_fold_fst, stepA_fold_fst]
  refine List.foldl_ext _ _ _ ?_
  intro acc entry _
  exact processURI_congr eng _ _ _ acc entry hby hvals

end FkCheck
